import Mathlib

/-!
# A verification model of the dask-lightgbm training coordinator

This file gives a shallow embedding, in Lean 4, of the coordination logic of
`dask_lightgbm/core.py`: address parsing (`parse_host_port`), network-topology
construction (`build_network_params`), the partition-pairing and
locality-grouping steps of `train`, the result-aggregation step of `train`,
the worker-side local fit (`_fit_local`, with its `try/finally` release of the
LightGBM network), and per-partition prediction (`_predict_part` / `predict`).

Python data structures are modelled explicitly:
* a Python `dict` is an insertion-ordered association list; writing to an
  existing key updates the value in place (keeping the key's position), while
  a new key is appended at the end;
* Python exceptions are modelled with `Except` and the error enumeration
  `Err` (`ValueError` raised while parsing an address is the spec's
  `AddressFormatError`, the `IndexError` raised by `results[0]` on an empty
  list is the spec's `NoModelProducedError`, and so on);
* the opaque collaborators (the LightGBM trainer, the trained model's row
  inference) are parameters of the functions that invoke them, constrained
  only by their documented interface.

All definitions are executable, so every concrete scenario below is settled
by evaluation inside the kernel.
-/

/-- The Python exceptions that the coordinator's code paths can raise,
named after the specification's error taxonomy where it gives a name.
`addressFormatError` is the `ValueError` escaping `parse_host_port`;
`keyError` a missing `dict` key; `stopIteration` is what `toolz.first`
raises on an empty collection; `indexError` an out-of-range sequence index
(`list_of_parts[0]`); `noModelProducedError` is the `IndexError` raised by
`results[0]` in `train` when every gathered result is falsy. -/
inductive Err : Type
  | addressFormatError
  | keyError
  | stopIteration
  | indexError
  | noModelProducedError
  deriving DecidableEq, Repr

/-- Equality of modelled call outcomes is decidable, so concrete runs can be
settled by evaluation. -/
instance {ε α : Type} [DecidableEq ε] [DecidableEq α] : DecidableEq (Except ε α)
  | Except.error e, Except.error f =>
    if h : e = f then Decidable.isTrue (h ▸ rfl)
    else Decidable.isFalse (fun hc => h (Except.error.inj hc))
  | Except.error _, Except.ok _ => Decidable.isFalse (fun hc => Except.noConfusion hc)
  | Except.ok _, Except.error _ => Decidable.isFalse (fun hc => Except.noConfusion hc)
  | Except.ok a, Except.ok b =>
    if h : a = b then Decidable.isTrue (h ▸ rfl)
    else Decidable.isFalse (fun hc => h (Except.ok.inj hc))

/-- A Python parameter value as it appears in the hyperparameter dict of
`train`: either a string (such as `"data"`) or an integer. -/
inductive PVal : Type
  | s (v : String)
  | n (v : Nat)
  deriving DecidableEq, Repr

/-- The hyperparameter dict passed to `train`: an insertion-ordered
association list from parameter names to values. -/
abbrev ParamsDict := List (String × PVal)

/-- Python `dict` write `d[k] = v` (and `toolz.assoc` / `{**d, k: v}`):
if the key is present its value is updated in place, keeping the entry's
position; otherwise the new entry is appended at the end. -/
def dictInsert {α β : Type} [DecidableEq α] : List (α × β) → α → β → List (α × β)
  | [], k, v => [(k, v)]
  | p :: rest, k, v => if p.1 = k then (k, v) :: rest else p :: dictInsert rest k v

/-- Python `str.split(sep)` for a one-character separator, on the character
list of the string: splits at every occurrence of `sep`, keeping empty
fields, so `"a:b"` gives `["a", "b"]` and `"ab"` gives `["ab"]`. -/
def pySplitChars (sep : Char) : List Char → List (List Char)
  | [] => [[]]
  | c :: rest =>
    let r := pySplitChars sep rest
    if c = sep then [] :: r
    else match r with
      | [] => [[c]]
      | f :: fs => (c :: f) :: fs

/-- Python `str.split(sep)` for a one-character separator. -/
def pySplit (sep : Char) (s : String) : List String :=
  (pySplitChars sep s.data).map (fun l => ⟨l⟩)

/-- The characters after the last occurrence of `"://"`, or `none` when the
string has no occurrence: the character-level core of Python
`address.rsplit('://', 1)[1]`. The pattern `"://"` cannot overlap itself, so
scanning left to right and keeping the last match found is the same as
splitting at the rightmost occurrence. -/
def afterScheme : List Char → Option (List Char)
  | ':' :: '/' :: '/' :: rest =>
    (match afterScheme rest with
     | some r => some r
     | none => some rest)
  | _ :: rest => afterScheme rest
  | [] => none

/-- The scheme-stripping step of `parse_host_port`:
`if '://' in address: address = address.rsplit('://', 1)[1]`. -/
def stripScheme (address : String) : String :=
  match afterScheme address.data with
  | some r => ⟨r⟩
  | none => address

/-- One decimal digit of Python `int()`. -/
def digitVal (c : Char) : Option Nat :=
  if '0' ≤ c ∧ c ≤ '9' then some (c.toNat - '0'.toNat) else none

/-- The decimal value of a nonempty digit string, `none` when a character is
not a digit or the string is empty. -/
def decimalVal : List Char → Option Nat
  | [] => none
  | [c] => digitVal c
  | c :: rest =>
    match digitVal c, decimalVal rest with
    | some d, some r => some (d * 10 ^ rest.length + r)
    | _, _ => none

/-- Python `int(s)` on the plain decimal strings that occur as ports:
an optional minus sign followed by decimal digits, `none` (a `ValueError`)
otherwise. -/
def pyInt (s : String) : Option Int :=
  match s.data with
  | '-' :: rest => (decimalVal rest).map (fun n => -(n : Int))
  | l => (decimalVal l).map (fun n => (n : Int))

/-- `parse_host_port` of `core.py`: strip an optional `scheme://` prefix,
split on `':'`, and require exactly a host and an integer port; the
`ValueError` escaping the unpacking or `int(port)` is the specification's
`AddressFormatError`. -/
def parse_host_port (address : String) : Except Err (String × Int) :=
  let a := stripScheme address
  match pySplit ':' a with
  | [host, port] =>
    match pyInt port with
    | some p => Except.ok (host, p)
    | none => Except.error Err.addressFormatError
  | _ => Except.error Err.addressFormatError

/-- The dict comprehension of `build_network_params`,
`{addr: (local_listen_port + i) for i, addr in enumerate(worker_addresses)}`,
unrolled with an explicit running index and accumulator. A repeated address
keeps the position of its first occurrence but receives the port of its last
occurrence, exactly as a Python dict does. -/
def addrPortMapFrom (base : Nat) : List String → Nat → List (String × Nat) → List (String × Nat)
  | [], _, m => m
  | a :: rest, i, m => addrPortMapFrom base rest (i + 1) (dictInsert m a (base + i))

/-- The `addr_port_map` dict of `build_network_params`. -/
def addrPortMap (worker_addresses : List String) (local_listen_port : Nat) : List (String × Nat) :=
  addrPortMapFrom local_listen_port worker_addresses 0 []

/-- Proof-side description of `addrPortMap` on duplicate-free input: the
i-th address paired with port `base + j + i`. -/
def zipPorts (base : Nat) : List String → Nat → List (String × Nat)
  | [], _ => []
  | a :: rest, i => (a, base + i) :: zipPorts base rest (i + 1)

/-- The network-parameter record returned by `build_network_params`. -/
structure NetworkParams : Type where
  machines : String
  local_listen_port : Nat
  listen_time_out : Nat
  num_machines : Nat
  deriving DecidableEq, Repr

/-- Effectful `map` over a list in the `Except` monad, evaluating left to
right and propagating the first error: the evaluation order of a Python list
comprehension whose body can raise. -/
def exceptMapM {α β : Type} (f : α → Except Err β) : List α → Except Err (List β)
  | [] => Except.ok []
  | a :: l => do
    let b ← f a
    let bs ← exceptMapM f l
    Except.ok (b :: bs)

/-- One entry of the `machines` list comprehension of `build_network_params`:
`parse_host_port(addr)[0] + ":" + str(port)` (the parse runs in full, so its
`ValueError` propagates even though only the host is kept). -/
def machinesEntry (p : String × Nat) : Except Err String := do
  let hp ← parse_host_port p.1
  Except.ok (hp.1 ++ ":" ++ toString p.2)

/-- `build_network_params` of `core.py`: assign sequential ports from
`local_listen_port` in input order via the `addr_port_map` dict, render the
comma-joined `machines` string from hosts and assigned ports, look up the
local worker's own port, and record the dict's size as `num_machines`. -/
def build_network_params (worker_addresses : List String) (local_worker_ip : String)
    (local_listen_port : Nat) (listen_time_out : Nat) : Except Err NetworkParams := do
  let m := addrPortMap worker_addresses local_listen_port
  let entries ← exceptMapM machinesEntry m
  let llp ← match List.lookup local_worker_ip m with
    | some p => Except.ok p
    | none => Except.error Err.keyError
  Except.ok
    { machines := String.intercalate "," entries
      local_listen_port := llp
      listen_time_out := listen_time_out
      num_machines := m.length }

/-- One step of the `worker_map` loop of `train`,
`worker_map[first(workers)].append(key)` on a `defaultdict(list)`: append the
key to the (unique) group of that worker, or open a new group at the end. -/
def multiInsert {κ Worker : Type} [DecidableEq Worker] :
    List (Worker × List κ) → Worker → κ → List (Worker × List κ)
  | [], w, k => [(w, [k])]
  | p :: rest, w, k =>
    if p.1 = w then (p.1, p.2 ++ [k]) :: rest else p :: multiInsert rest w k

/-- The `worker_map` loop of `train` over the `who_has` report:
`for key, workers in who_has.items():
worker_map[first(workers)].append(key_to_part_dict[key])`.
`toolz.first` on an empty worker set raises `StopIteration`, and a reported
key that is not a submitted part raises `KeyError` from `key_to_part_dict`
(parts are identified with their keys here, so the lookup is a membership
check). -/
def buildWorkerMap {κ Worker : Type} [DecidableEq κ] [DecidableEq Worker] (parts : List κ) :
    List (Worker × List κ) → List (κ × List Worker) → Except Err (List (Worker × List κ))
  | m, [] => Except.ok m
  | m, (k, ows) :: rest =>
    match ows.head? with
    | none => Except.error Err.stopIteration
    | some w =>
      if k ∈ parts then buildWorkerMap parts (multiInsert m w k) rest
      else Except.error Err.keyError

/-- Total number of occurrences of a partition key across all the groups of a
worker map: `1` means the key sits in exactly one worker's group, once. -/
def occList {κ Worker : Type} [DecidableEq κ] (m : List (Worker × List κ)) (k : κ) : Nat :=
  (m.map (fun p => p.2.count k)).sum

/-- The part-pairing step of `train`:
`zip(data_parts, label_parts, sample_weight_parts)` when weights are given,
`zip(data_parts, label_parts)` otherwise, each tuple kept as a list. Python's
`zip` silently truncates to the shortest input. -/
def arrangeParts {α : Type} (dataParts labelParts : List α) :
    Option (List α) → List (List α)
  | some ws => (dataParts.zip (labelParts.zip ws)).map (fun p => [p.1, p.2.1, p.2.2])
  | none => (dataParts.zip labelParts).map (fun p => [p.1, p.2])

/-- Python `params.get(key, default)`. -/
def pyDictGet (d : ParamsDict) (k : String) (default : PVal) : PVal :=
  match List.lookup k d with
  | some v => v
  | none => default

/-- One task submission of `train`: the keyword arguments handed to
`client.submit(_fit_local, ...)` for one worker. -/
structure Job (α Worker : Type) : Type where
  worker : Worker
  params : ParamsDict
  list_of_parts : List (List α)
  worker_addresses : List Worker
  local_listen_port : PVal
  listen_time_out : PVal
  deriving DecidableEq, Repr

/-- What the coordinator side of `train` has produced once every
`client.submit` call has been issued: the submitted jobs, and the
hyperparameter dict as the caller sees it afterwards (the same object the
caller passed in, which `train` wrote `tree_learner = "data"` into). -/
structure Submitted (α Worker : Type) : Type where
  jobs : List (Job α Worker)
  callerParams : ParamsDict
  deriving DecidableEq, Repr

/-- The coordinator side of `train` in `core.py`, up to task submission:
pair the partitions with `zip` (no arity check), group the materialized
parts by the first owner that `who_has` reports, write
`params['tree_learner'] = "data"` into the caller's dict, and build one
submission per worker holding parts, with `toolz.assoc` copies of the dict
for `num_threads` and the port/timeout defaults read back out of `params`.
The `who_has` report and the `ncores` map stand for the answers of the task
substrate (`client.who_has(parts)`, `client.ncores()`). -/
def trainCoordinator {α Worker : Type} [DecidableEq α] [DecidableEq Worker]
    (who_has : List (List α × List Worker)) (ncores : List (Worker × Nat))
    (dataParts labelParts : List α) (weightParts : Option (List α))
    (params : ParamsDict) : Except Err (Submitted α Worker) := do
  let parts := arrangeParts dataParts labelParts weightParts
  let worker_map ← buildWorkerMap parts [] who_has
  let params := dictInsert params "tree_learner" (PVal.s "data")
  let jobs ← exceptMapM (fun wp => do
      let nc ← match List.lookup wp.1 ncores with
        | some n => Except.ok n
        | none => Except.error Err.keyError
      Except.ok
        { worker := wp.1
          params := dictInsert params "num_threads" (PVal.n nc)
          list_of_parts := wp.2
          worker_addresses := worker_map.map Prod.fst
          local_listen_port := pyDictGet params "local_listen_port" (PVal.n 12400)
          listen_time_out := pyDictGet params "listen_time_out" (PVal.n 120) : Job α Worker })
    worker_map
  Except.ok ⟨jobs, params⟩

/-- The result-aggregation tail of `train`:
`results = client.gather(futures); results = [v for v in results if v];
return results[0]`. `truthy` is Python truthiness on a gathered per-worker
result; the `IndexError` of `results[0]` on an all-falsy list is the
specification's `NoModelProducedError`. -/
def aggregateResults {Model : Type} (truthy : Model → Bool) (results : List Model) :
    Except Err Model :=
  match results.filter truthy with
  | [] => Except.error Err.noModelProducedError
  | m :: _ => Except.ok m

/-- The parameter merge of `_fit_local`, `params = {**params, **network_params}`:
the four network keys written over the hyperparameter dict in the order the
`build_network_params` dict holds them. -/
def mergeNetworkParams (params : ParamsDict) (np : NetworkParams) : ParamsDict :=
  dictInsert
    (dictInsert
      (dictInsert
        (dictInsert params "machines" (PVal.s np.machines))
        "local_listen_port" (PVal.n np.local_listen_port))
      "listen_time_out" (PVal.n np.listen_time_out))
    "num_machines" (PVal.n np.num_machines)

/-- What one run of `_fit_local` produces: its return value or raised error,
together with how many times `_LIB.LGBM_NetworkFree()` ran. -/
structure FitLocalOutcome (Model : Type) : Type where
  result : Except Err Model
  networkFreeCalls : Nat
  deriving DecidableEq, Repr

/-- The worker-side `_fit_local` of `core.py`. It first builds the network
parameters (any error there escapes before the `try` block is entered, with
no `LGBM_NetworkFree` call), merges them into the hyperparameters, reads
`list_of_parts[0]` (an `IndexError` on an empty list also precedes the
`try`), then runs `model_factory(**params)` and `classifier.fit(...)` inside
`try ... finally _safe_call(_LIB.LGBM_NetworkFree())`. The opaque factory and
fit on the worker's concatenated local data are modelled by `trainer`, a
function of the merged parameter dict that either returns a model or raises;
either way the `finally` block frees the network exactly once. -/
def fitLocal {α Model : Type} (params : ParamsDict)
    (trainer : ParamsDict → Except Err Model)
    (list_of_parts : List (List α)) (worker_addresses : List String)
    (localWorkerAddress : String) (local_listen_port : Nat) (listen_time_out : Nat) :
    FitLocalOutcome Model :=
  match build_network_params worker_addresses localWorkerAddress local_listen_port
      listen_time_out with
  | Except.error e => ⟨Except.error e, 0⟩
  | Except.ok np =>
    let merged := mergeNetworkParams params np
    match list_of_parts.head? with
    | none => ⟨Except.error Err.indexError, 0⟩
    | some _ => ⟨trainer merged, 1⟩

/-- The trained model as `predict` consumes it: the opaque per-row inference
functions of the local LightGBM model (`model.predict` maps each input row to
one scalar, `model.predict_proba` maps each input row to one score per
class), together with the class count fixed at training time. -/
structure LocalModel (Feat Lbl Score : Type) : Type where
  nClasses : Nat
  predictRow : Feat → Lbl
  predictProbaRow : Feat → List Score
  predictProbaRow_length : ∀ x, (predictProbaRow x).length = nClasses

/-- The value `_predict_part` returns on a pandas partition: a `pd.Series`
of one scalar per row (non-probabilistic) or a `pd.DataFrame` of one score
row per input row (probabilistic), each carrying the row-index labels. -/
inductive PredOut (Lbl Score : Type) : Type
  | series (vals : List (Nat × Lbl))
  | frame (vals : List (Nat × List Score))
  deriving DecidableEq, Repr

/-- The row-index labels of a `_predict_part` result, in order. -/
def PredOut.rowIndex {Lbl Score : Type} : PredOut Lbl Score → List Nat
  | PredOut.series l => l.map Prod.fst
  | PredOut.frame l => l.map Prod.fst

/-- The number of rows of a `_predict_part` result. -/
def PredOut.numRows {Lbl Score : Type} : PredOut Lbl Score → Nat
  | PredOut.series l => l.length
  | PredOut.frame l => l.length

/-- `_predict_part` of `core.py` on a pandas partition, whose rows carry
index labels: take `X = part.values`, apply the model, and rebuild a
`pd.Series(result, index=part.index)` or a
`pd.DataFrame(result, index=part.index)`. -/
def predictPartFrame {Feat Lbl Score : Type} (model : LocalModel Feat Lbl Score)
    (part : List (Nat × Feat)) (proba : Bool) : PredOut Lbl Score :=
  let X := part.map Prod.snd
  if proba then PredOut.frame (List.zip (part.map Prod.fst) (X.map model.predictProbaRow))
  else PredOut.series (List.zip (part.map Prod.fst) (X.map model.predictRow))

/-- The value `_predict_part` returns on a numpy block: a vector of one
prediction per row, or a matrix of one score row per input row. -/
inductive ArrOut (Lbl Score : Type) : Type
  | vec (vals : List Lbl)
  | mat (rows : List (List Score))
  deriving DecidableEq, Repr

/-- The number of rows of a `_predict_part` result on a numpy block. -/
def ArrOut.numRows {Lbl Score : Type} : ArrOut Lbl Score → Nat
  | ArrOut.vec l => l.length
  | ArrOut.mat l => l.length

/-- `_predict_part` of `core.py` on a numpy block (no index to carry). -/
def predictPartArray {Feat Lbl Score : Type} (model : LocalModel Feat Lbl Score)
    (block : List Feat) (proba : Bool) : ArrOut Lbl Score :=
  if proba then ArrOut.mat (block.map model.predictProbaRow)
  else ArrOut.vec (block.map model.predictRow)

/-- `predict` of `core.py` on a partitioned dataframe:
`data.map_partitions(_predict_part, model=model, proba=proba)` — the model
applied to each partition independently. -/
def predictFrame {Feat Lbl Score : Type} (model : LocalModel Feat Lbl Score)
    (partitions : List (List (Nat × Feat))) (proba : Bool) : List (PredOut Lbl Score) :=
  partitions.map (fun p => predictPartFrame model p proba)

/-- `predict` of `core.py` on a chunked array:
`data.map_blocks(_predict_part, model=model, proba=proba, ...)` — the model
applied to each block independently (the declared output chunking keeps the
input's row chunking, with a class-sized second axis when `proba`). -/
def predictArray {Feat Lbl Score : Type} (model : LocalModel Feat Lbl Score)
    (blocks : List (List Feat)) (proba : Bool) : List (ArrOut Lbl Score) :=
  blocks.map (fun b => predictPartArray model b proba)

/-! ## Association-list and port-assignment lemmas -/

/-- Writing a fresh key into a Python dict appends the entry at the end. -/
theorem dictInsert_append {α β : Type} [DecidableEq α] (m : List (α × β)) (a : α) (v : β)
    (h : ∀ p ∈ m, p.1 ≠ a) : dictInsert m a v = m ++ [(a, v)] := by
  induction m with
  | nil => rfl
  | cons p rest ih =>
    have hp : p.1 ≠ a := h p (by simp)
    simp only [dictInsert, if_neg hp, List.cons_append, List.cons.injEq, true_and]
    exact ih (fun q hq => h q (by simp [hq]))

/-- On duplicate-free addresses the `addr_port_map` dict comprehension is the
plain sequential pairing `zipPorts`. -/
theorem addrPortMapFrom_eq_zipPorts (base : Nat) (rest : List String) :
    ∀ (i : Nat) (m : List (String × Nat)), rest.Nodup →
      (∀ a ∈ rest, ∀ p ∈ m, p.1 ≠ a) →
      addrPortMapFrom base rest i m = m ++ zipPorts base rest i := by
  induction rest with
  | nil => intro i m _ _; simp [addrPortMapFrom, zipPorts]
  | cons a rs ih =>
    intro i m hnd hdis
    have hna : ∀ p ∈ m, p.1 ≠ a := fun p hp => hdis a (by simp) p hp
    have hnotin : a ∉ rs := (List.nodup_cons.mp hnd).1
    have hnd2 : rs.Nodup := (List.nodup_cons.mp hnd).2
    have hdis2 : ∀ b ∈ rs, ∀ p ∈ m ++ [(a, base + i)], p.1 ≠ b := by
      intro b hb p hp
      rcases List.mem_append.mp hp with hm | hm
      · exact hdis b (by simp [hb]) p hm
      · have hpa : p = (a, base + i) := by simpa using hm
        subst hpa
        intro hab
        have hab2 : a = b := hab
        apply hnotin
        rw [hab2]
        exact hb
    calc addrPortMapFrom base (a :: rs) i m
        = addrPortMapFrom base rs (i + 1) (dictInsert m a (base + i)) := rfl
      _ = addrPortMapFrom base rs (i + 1) (m ++ [(a, base + i)]) := by
            rw [dictInsert_append m a (base + i) hna]
      _ = (m ++ [(a, base + i)]) ++ zipPorts base rs (i + 1) := ih (i + 1) _ hnd2 hdis2
      _ = m ++ zipPorts base (a :: rs) i := by simp [zipPorts]

/-- `addrPortMap` on duplicate-free addresses is the sequential pairing. -/
theorem addrPortMap_eq_zipPorts (ws : List String) (P : Nat) (hnd : ws.Nodup) :
    addrPortMap ws P = zipPorts P ws 0 := by
  have h := addrPortMapFrom_eq_zipPorts P ws 0 [] hnd (by simp)
  simpa [addrPortMap] using h

/-- Looking up the k-th address of a duplicate-free list in the sequential
pairing returns its positional port. -/
theorem zipPorts_lookup (base : Nat) (ws : List String) :
    ∀ (j k : Nat) (hk : k < ws.length), ws.Nodup →
      List.lookup (ws.get ⟨k, hk⟩) (zipPorts base ws j) = some (base + (j + k)) := by
  induction ws with
  | nil => intro j k hk; simp at hk
  | cons a rs ih =>
    intro j k hk hnd
    have hnotin : a ∉ rs := (List.nodup_cons.mp hnd).1
    have hnd2 : rs.Nodup := (List.nodup_cons.mp hnd).2
    match k with
    | 0 => simp [zipPorts, List.lookup]
    | k + 1 =>
      have hk2 : k < rs.length := Nat.lt_of_succ_lt_succ hk
      have hget : (a :: rs).get ⟨k + 1, hk⟩ = rs.get ⟨k, hk2⟩ := rfl
      have hmem : rs.get ⟨k, hk2⟩ ∈ rs := List.get_mem rs k hk2
      have hne : (rs.get ⟨k, hk2⟩ == a) = false := by
        refine beq_eq_false_iff_ne.mpr ?_
        intro he
        exact hnotin (he ▸ hmem)
      have harith : j + 1 + k = j + (k + 1) := by omega
      rw [hget]
      show List.lookup (rs.get ⟨k, hk2⟩) ((a, base + j) :: zipPorts base rs (j + 1)) = _
      rw [List.lookup]
      simp only [hne]
      rw [ih (j + 1) k hk2 hnd2, harith]

/-- The ports of the sequential pairing are exactly the consecutive range. -/
theorem zipPorts_snd (base : Nat) (ws : List String) :
    ∀ j : Nat, (zipPorts base ws j).map Prod.snd = List.range' (base + j) ws.length := by
  induction ws with
  | nil => intro j; simp [zipPorts]
  | cons a rs ih =>
    intro j
    have harith : base + j + 1 = base + (j + 1) := by omega
    simp [zipPorts, List.range'_succ, harith, ih (j + 1)]

/-- The sequential pairing has one entry per address. -/
theorem zipPorts_length (base : Nat) (ws : List String) :
    ∀ j : Nat, (zipPorts base ws j).length = ws.length := by
  induction ws with
  | nil => intro j; rfl
  | cons a rs ih => intro j; simp [zipPorts, ih (j + 1)]

/-! ## Claim theorems: topology construction -/

/-- Claim C1, amended with pairwise-distinct addresses (the claim as frozen
fails on a list with a repeated address, see the counterexample): for every
duplicate-free list of worker addresses and every base port P, the
`addr_port_map` built by `build_network_params` assigns listen port `P + i`
to the i-th address, and the assigned ports are exactly the consecutive
range `P, P+1, ..., P+N-1` — in particular collision-free. -/
theorem ports_sequential_of_nodup (addrs : List String) (P : Nat) (hnd : addrs.Nodup) :
    (∀ i, ∀ hi : i < addrs.length,
        List.lookup (addrs.get ⟨i, hi⟩) (addrPortMap addrs P) = some (P + i)) ∧
    (addrPortMap addrs P).map Prod.snd = List.range' P addrs.length := by
  rw [addrPortMap_eq_zipPorts addrs P hnd]
  constructor
  · intro i hi
    have h := zipPorts_lookup P addrs 0 i hi hnd
    simpa using h
  · have h := zipPorts_snd P addrs 0
    simpa using h

/-- Witness for `ports_sequential_of_nodup` at three distinct addresses and
base port 12400. -/
theorem ports_sequential_witness :
    (∀ i, ∀ hi : i < (["a:1", "b:2", "c:3"] : List String).length,
        List.lookup ((["a:1", "b:2", "c:3"] : List String).get ⟨i, hi⟩)
          (addrPortMap ["a:1", "b:2", "c:3"] 12400) = some (12400 + i)) ∧
    (addrPortMap ["a:1", "b:2", "c:3"] 12400).map Prod.snd =
      List.range' 12400 (["a:1", "b:2", "c:3"] : List String).length :=
  ports_sequential_of_nodup ["a:1", "b:2", "c:3"] 12400 (by decide)

/-- Counterexample to claim C1 as frozen ("for every list of worker
addresses"): with the repeated address list `["a:1", "a:1"]` and base port
10, the dict collapses the two entries, the 0-th address is assigned port
11 rather than `10 + 0`, and only one port is assigned instead of the
claimed two-element range `{10, 11}`. -/
theorem ports_duplicate_counterexample :
    addrPortMap ["a:1", "a:1"] 10 = [("a:1", 11)] ∧
    List.lookup ((["a:1", "a:1"] : List String).get ⟨0, by decide⟩)
      (addrPortMap ["a:1", "a:1"] 10) ≠ some (10 + 0) ∧
    (addrPortMap ["a:1", "a:1"] 10).map Prod.snd ≠
      List.range' 10 (["a:1", "a:1"] : List String).length := by
  refine ⟨rfl, ?_, ?_⟩ <;> decide

/-- Claim C3: the concrete round trip of the specification, settled by
evaluating `build_network_params` inside the kernel: three `tcp://` worker
addresses, local worker the second one, base port 12400 and timeout 120
yield exactly the specified `machines` string, local listen port 12401,
`num_machines = 3` and `listen_time_out = 120`. -/
theorem round_trip_concrete :
    build_network_params
        ["tcp://192.168.0.1:34545", "tcp://192.168.0.2:34346", "tcp://192.168.0.3:34347"]
        "tcp://192.168.0.2:34346" 12400 120 =
      Except.ok
        { machines := "192.168.0.1:12400,192.168.0.2:12401,192.168.0.3:12402"
          local_listen_port := 12401
          listen_time_out := 120
          num_machines := 3 } := rfl

/-- Whatever `build_network_params` returns records the size of the
`addr_port_map` dict as `num_machines`. -/
theorem build_network_params_num_machines (ws : List String) (lw : String) (P t : Nat)
    (ps : NetworkParams) (hok : build_network_params ws lw P t = Except.ok ps) :
    ps.num_machines = (addrPortMap ws P).length := by
  simp only [build_network_params] at hok
  cases hm : exceptMapM machinesEntry (addrPortMap ws P) with
  | error e =>
    rw [hm] at hok
    simp [Bind.bind, Except.bind] at hok
  | ok entries =>
    rw [hm] at hok
    simp only [Bind.bind, Except.bind] at hok
    cases hl : List.lookup lw (addrPortMap ws P) with
    | none =>
      rw [hl] at hok
      simp [Bind.bind, Except.bind] at hok
    | some p =>
      rw [hl] at hok
      simp only [Bind.bind, Except.bind, Except.ok.injEq] at hok
      rw [← hok]

/-- Claim C4, amended with pairwise-distinct addresses (the claim as frozen
counts repeated addresses, which the dict collapses, see the
counterexample): on a duplicate-free address list, `num_machines` equals
the number of input addresses. -/
theorem num_machines_eq_input_length (ws : List String) (lw : String) (P t : Nat)
    (ps : NetworkParams) (hnd : ws.Nodup)
    (hok : build_network_params ws lw P t = Except.ok ps) :
    ps.num_machines = ws.length := by
  rw [build_network_params_num_machines ws lw P t ps hok,
    addrPortMap_eq_zipPorts ws P hnd, zipPorts_length P ws 0]

/-- Witness for `num_machines_eq_input_length` at the concrete round-trip
topology of claim C3. -/
theorem num_machines_witness :
    ({ machines := "192.168.0.1:12400,192.168.0.2:12401,192.168.0.3:12402"
       local_listen_port := 12401
       listen_time_out := 120
       num_machines := 3 } : NetworkParams).num_machines =
      (["tcp://192.168.0.1:34545", "tcp://192.168.0.2:34346", "tcp://192.168.0.3:34347"] :
        List String).length :=
  num_machines_eq_input_length
    ["tcp://192.168.0.1:34545", "tcp://192.168.0.2:34346", "tcp://192.168.0.3:34347"]
    "tcp://192.168.0.2:34346" 12400 120
    { machines := "192.168.0.1:12400,192.168.0.2:12401,192.168.0.3:12402"
      local_listen_port := 12401
      listen_time_out := 120
      num_machines := 3 }
    (by decide) rfl

/-- Counterexample to claim C4 as frozen ("including any repeated
addresses"): the repeated address list `["a:1", "a:1"]` has two elements,
but the returned topology reports `num_machines = 1`, because the dict
comprehension keyed on addresses collapses the repetition. -/
theorem num_machines_duplicate_counterexample :
    build_network_params ["a:1", "a:1"] "a:1" 10 5 =
      Except.ok
        { machines := "a:11", local_listen_port := 11, listen_time_out := 5,
          num_machines := 1 } ∧
    (1 : Nat) ≠ (["a:1", "a:1"] : List String).length := ⟨rfl, by decide⟩

/-! ## Claim theorems: part pairing and aggregation -/

/-- Positional pairing of `zip`: when both lists have an i-th element, the
zipped list pairs exactly those two. -/
theorem zip_get_pos {α β : Type} (d : List α) :
    ∀ (l : List β) (i : Nat) (a : α) (b : β),
      d.get? i = some a → l.get? i = some b → (d.zip l).get? i = some (a, b) := by
  induction d with
  | nil => intro l i a b hd; simp at hd
  | cons x xs ih =>
    intro l i a b hd hl
    cases l with
    | nil => simp at hl
    | cons y ys =>
      cases i with
      | zero =>
        simp only [List.get?] at hd hl
        simp [List.zip_cons_cons, List.get?, ← Option.some.inj hd, ← Option.some.inj hl]
      | succ n =>
        simp only [List.get?] at hd hl
        simpa [List.zip_cons_cons, List.get?] using ih ys n a b hd hl

/-- Claim C2, amended: `train` performs no arity check at all. The pairing
step `zip(data_parts, label_parts[, sample_weight_parts])` silently
truncates to the shortest input sequence — pairing the i-th feature
partition with the i-th label partition up to that length — and training
proceeds on the truncated pairs; no error of any kind is raised for
differing lengths. -/
theorem zip_truncates_parts (α : Type) (d l : List α) :
    (arrangeParts d l none).length = min d.length l.length ∧
    (∀ w : List α,
      (arrangeParts d l (some w)).length = min d.length (min l.length w.length)) ∧
    (∀ i a b, d.get? i = some a → l.get? i = some b →
      (arrangeParts d l none).get? i = some [a, b]) := by
  refine ⟨?_, ?_, ?_⟩
  · simp [arrangeParts]
  · intro w; simp [arrangeParts]
  · intro i a b hd hl
    have hz := zip_get_pos d l i a b hd hl
    rw [List.get?_eq_getElem?] at hz
    simp [arrangeParts, hz]

/-- Counterexample to claim C2 as frozen: with 3 feature partitions and 2
label partitions, the coordinator raises nothing — it pairs the first two
partitions, submits a training task for the worker holding them, and
returns normally, so no `ArityMismatchError` (nor any error) precedes task
submission. -/
theorem arity_mismatch_counterexample :
    @trainCoordinator String String _ _
        [(["f1", "l1"], ["w1"]), (["f2", "l2"], ["w1"])] [("w1", 4)]
        ["f1", "f2", "f3"] ["l1", "l2"] none [] =
      Except.ok
        { jobs := [{ worker := "w1"
                     params := [("tree_learner", PVal.s "data"), ("num_threads", PVal.n 4)]
                     list_of_parts := [["f1", "l1"], ["f2", "l2"]]
                     worker_addresses := ["w1"]
                     local_listen_port := PVal.n 12400
                     listen_time_out := PVal.n 120 }]
          callerParams := [("tree_learner", PVal.s "data")] } ∧
    (arrangeParts ["f1", "f2", "f3"] ["l1", "l2"] none).length = 2 := ⟨rfl, rfl⟩

/-- Claim C5: the aggregation tail of `train` keeps the first truthy
per-worker result (dropping falsy/empty ones), and fails with the
specification's `NoModelProducedError` exactly when every gathered result
is falsy. The input list is the gathered (already awaited) per-worker
results, in future order. -/
theorem aggregate_first_truthy (Model : Type) (truthy : Model → Bool)
    (results : List Model) :
    aggregateResults truthy results =
      (match (results.filter truthy).head? with
       | some m => Except.ok m
       | none => Except.error Err.noModelProducedError) ∧
    ((∀ r ∈ results, truthy r = false) →
      aggregateResults truthy results = Except.error Err.noModelProducedError) ∧
    (∀ m ∈ results, truthy m = true → ∃ v, aggregateResults truthy results = Except.ok v) := by
  refine ⟨?_, ?_, ?_⟩
  · cases h : results.filter truthy with
    | nil => simp [aggregateResults, h]
    | cons v rest => simp [aggregateResults, h]
  · intro hall
    have hnil : results.filter truthy = [] := by
      rw [List.filter_eq_nil_iff]
      intro a ha
      simp [hall a ha]
    simp [aggregateResults, hnil]
  · intro m hm hmt
    have hne : results.filter truthy ≠ [] := by
      intro hnil
      have := List.filter_eq_nil_iff.mp hnil m hm
      simp [hmt] at this
    cases h : results.filter truthy with
    | nil => exact absurd h hne
    | cons v rest => exact ⟨v, by simp [aggregateResults, h]⟩

/-! ## Claim theorems: locality grouping -/

/-- The occurrence count of the empty worker map. -/
theorem occList_nil {κ Worker : Type} [DecidableEq κ] (x : κ) :
    occList ([] : List (Worker × List κ)) x = 0 := rfl

/-- The occurrence count of a worker map, one group at a time. -/
theorem occList_cons {κ Worker : Type} [DecidableEq κ] (q : Worker × List κ)
    (rest : List (Worker × List κ)) (x : κ) :
    occList (q :: rest) x = List.count x q.2 + occList rest x := by
  simp [occList]

/-- Appending a key to a worker's group adds exactly one occurrence of that
key to the map, and leaves every other key's occurrence count unchanged. -/
theorem multiInsert_occ {κ Worker : Type} [DecidableEq κ] [DecidableEq Worker]
    (w : Worker) (k x : κ) :
    ∀ m : List (Worker × List κ),
      occList (multiInsert m w k) x = occList m x + List.count x [k] := by
  intro m
  induction m with
  | nil => simp [multiInsert, occList]
  | cons q rest ih =>
    by_cases hq : q.1 = w
    · rw [multiInsert, if_pos hq, occList_cons, occList_cons, List.count_append]
      omega
    · rw [multiInsert, if_neg hq, occList_cons, occList_cons, ih]
      omega

/-- Running the `worker_map` loop adds, for every key, exactly as many
occurrences as the report lists for it. -/
theorem buildWorkerMap_occ {κ Worker : Type} [DecidableEq κ] [DecidableEq Worker]
    (parts : List κ) :
    ∀ (rest : List (κ × List Worker)) (m fin : List (Worker × List κ)),
      buildWorkerMap parts m rest = Except.ok fin →
      ∀ x, occList fin x = occList m x + List.count x (rest.map Prod.fst) := by
  intro rest
  induction rest with
  | nil =>
    intro m fin hok x
    simp only [buildWorkerMap, Except.ok.injEq] at hok
    simp [← hok]
  | cons q rest ih =>
    intro m fin hok x
    obtain ⟨k, ows⟩ := q
    cases ows with
    | nil => simp [buildWorkerMap] at hok
    | cons w ws2 =>
      simp only [buildWorkerMap, List.head?_cons] at hok
      by_cases hk : k ∈ parts
      · rw [if_pos hk] at hok
        have h2 := ih (multiInsert m w k) fin hok x
        rw [h2, multiInsert_occ w k x m]
        simp only [List.map_cons, List.count_cons]
        by_cases hkx : k = x
        · simp [hkx]
          omega
        · simp [hkx]
      · rw [if_neg hk] at hok
        simp at hok

/-- Appending a key to the group of a worker it is related to preserves a
per-group relation between keys and their group's worker. -/
theorem multiInsert_groups {κ Worker : Type} [DecidableEq Worker]
    (P : κ → Worker → Prop) (w : Worker) (k : κ) :
    ∀ m : List (Worker × List κ),
      (∀ p ∈ m, ∀ x ∈ p.2, P x p.1) → P k w →
      ∀ p ∈ multiInsert m w k, ∀ x ∈ p.2, P x p.1 := by
  intro m
  induction m with
  | nil =>
    intro _ hkw p hp x hx
    simp only [multiInsert, List.mem_singleton] at hp
    subst hp
    simp only [List.mem_singleton] at hx
    subst hx
    exact hkw
  | cons q rest ih =>
    intro hall hkw p hp x hx
    by_cases hq : q.1 = w
    · rw [multiInsert, if_pos hq] at hp
      rcases List.mem_cons.mp hp with hp1 | hp2
      · subst hp1
        rcases List.mem_append.mp hx with hx1 | hx2
        · exact hall q (by simp) x hx1
        · have hxk : x = k := by simpa using hx2
          subst hxk
          have := hq ▸ hkw
          exact this
      · exact hall p (by simp [hp2]) x hx
    · rw [multiInsert, if_neg hq] at hp
      rcases List.mem_cons.mp hp with hp1 | hp2
      · subst hp1
        exact hall p (by simp) x hx
      · exact ih (fun r hr => hall r (by simp [hr])) hkw p hp2 x hx

/-- Every key in any group produced by the `worker_map` loop is related — by
any relation that holds for each processed report entry and its first
listed worker — to the worker whose group it sits in. -/
theorem buildWorkerMap_groups {κ Worker : Type} [DecidableEq κ] [DecidableEq Worker]
    (parts : List κ) (P : κ → Worker → Prop) :
    ∀ (rest : List (κ × List Worker)) (m fin : List (Worker × List κ)),
      buildWorkerMap parts m rest = Except.ok fin →
      (∀ p ∈ m, ∀ x ∈ p.2, P x p.1) →
      (∀ q ∈ rest, ∀ w, q.2.head? = some w → P q.1 w) →
      ∀ p ∈ fin, ∀ x ∈ p.2, P x p.1 := by
  intro rest
  induction rest with
  | nil =>
    intro m fin hok hm _
    simp only [buildWorkerMap, Except.ok.injEq] at hok
    subst hok
    exact hm
  | cons q rest ih =>
    intro m fin hok hm hrest
    obtain ⟨k, ows⟩ := q
    cases ows with
    | nil => simp [buildWorkerMap] at hok
    | cons w ws2 =>
      simp only [buildWorkerMap, List.head?_cons] at hok
      by_cases hk : k ∈ parts
      · rw [if_pos hk] at hok
        have hkw : P k w := hrest (k, w :: ws2) (by simp) w (by simp)
        exact ih (multiInsert m w k) fin hok
          (multiInsert_groups P w k m hm hkw)
          (fun q2 hq2 => hrest q2 (by simp [hq2]))
      · rw [if_neg hk] at hok
        simp at hok

/-- Claim C7: for every set of input partitions and every ownership report
whose keys are exactly the input partitions (each with a nonempty owner
set, as `client.who_has` reports for materialized parts), the `worker_map`
built by `train` places in each worker's group only partitions whose
first-reported owner is that worker, and every input partition lands in
exactly one worker's group (its total occurrence count across all groups
is one). -/
theorem locality_grouping (κ Worker : Type) [DecidableEq κ] [DecidableEq Worker]
    (parts : List κ) (whoHas : List (κ × List Worker)) (m : List (Worker × List κ))
    (hnd : (whoHas.map Prod.fst).Nodup)
    (hcover : ∀ k ∈ parts, k ∈ whoHas.map Prod.fst)
    (hok : buildWorkerMap parts [] whoHas = Except.ok m) :
    (∀ p ∈ m, ∀ k ∈ p.2, ∃ ows, (k, ows) ∈ whoHas ∧ ows.head? = some p.1) ∧
    (∀ k ∈ parts, occList m k = 1) := by
  constructor
  · refine buildWorkerMap_groups parts
      (fun k w => ∃ ows, (k, ows) ∈ whoHas ∧ ows.head? = some w)
      whoHas [] m hok (by simp) ?_
    intro q hq w hw
    exact ⟨q.2, by simpa using hq, hw⟩
  · intro k hk
    have h := buildWorkerMap_occ parts whoHas [] m hok k
    rw [h]
    have h0 : occList ([] : List (Worker × List κ)) k = 0 := rfl
    rw [h0, Nat.zero_add]
    exact List.count_eq_one_of_mem hnd (hcover k hk)

/-- Witness for `locality_grouping`: three partitions, two workers, one
partition replicated — the replicated partition lands in its first-listed
owner's group only. -/
theorem locality_grouping_witness :
    (∀ p ∈ ([("w1", ["p1", "p3"]), ("w2", ["p2"])] : List (String × List String)),
      ∀ k ∈ p.2,
        ∃ ows, (k, ows) ∈
            ([("p1", ["w1", "w2"]), ("p2", ["w2"]), ("p3", ["w1"])] :
              List (String × List String)) ∧
          ows.head? = some p.1) ∧
    (∀ k ∈ (["p1", "p2", "p3"] : List String),
      occList ([("w1", ["p1", "p3"]), ("w2", ["p2"])] : List (String × List String)) k = 1) :=
  locality_grouping String String ["p1", "p2", "p3"]
    [("p1", ["w1", "w2"]), ("p2", ["w2"]), ("p3", ["w1"])]
    [("w1", ["p1", "p3"]), ("w2", ["p2"])]
    (by decide) (by decide) rfl

/-! ## Claim theorems: caller-visible parameter mutation -/

/-- Splitting a successful `Except` bind whose continuation is applied to
the bound value. -/
theorem except_bind_ok {γ δ : Type} (e : Except Err γ) (f : γ → Except Err δ) (s : δ)
    (h : (e >>= f) = Except.ok s) : ∃ x, e = Except.ok x ∧ f x = Except.ok s := by
  cases e with
  | error err => simp [Bind.bind, Except.bind] at h
  | ok x => exact ⟨x, rfl, by simpa [Bind.bind, Except.bind] using h⟩

/-- Looking a key up right after writing it returns the written value. -/
theorem lookup_dictInsert_self (m : ParamsDict) (k : String) (v : PVal) :
    List.lookup k (dictInsert m k v) = some v := by
  induction m with
  | nil => simp [dictInsert, List.lookup]
  | cons p rest ih =>
    by_cases h : p.1 = k
    · simp [dictInsert, h, List.lookup]
    · have hne : (k == p.1) = false := beq_eq_false_iff_ne.mpr (fun he => h he.symm)
      rw [dictInsert, if_neg h, List.lookup]
      simp only [hne]
      exact ih

/-- Whenever the coordinator returns, the hyperparameter dict the caller
passed in has been updated with `tree_learner = "data"`. -/
theorem trainCoordinator_callerParams {α Worker : Type} [DecidableEq α] [DecidableEq Worker]
    (who_has : List (List α × List Worker)) (ncores : List (Worker × Nat))
    (d l : List α) (w : Option (List α)) (params : ParamsDict) (sub : Submitted α Worker)
    (hok : trainCoordinator who_has ncores d l w params = Except.ok sub) :
    sub.callerParams = dictInsert params "tree_learner" (PVal.s "data") := by
  simp only [trainCoordinator] at hok
  obtain ⟨wm, hwm, hok2⟩ := except_bind_ok _ _ _ hok
  obtain ⟨jobs, hj, hok3⟩ := except_bind_ok _ _ _ hok2
  have hsub : Submitted.mk jobs (dictInsert params "tree_learner" (PVal.s "data")) = sub :=
    Except.ok.inj hok3
  rw [← hsub]

/-- Claim C10: `train` mutates the caller-supplied hyperparameter dict in
place — `params['tree_learner'] = "data"` — so after any call that returns,
the caller's own dict maps `tree_learner` to `"data"`, whatever it held
there before. The in-place mutation is modelled by returning the
caller-visible dict in `Submitted.callerParams`. -/
theorem tree_learner_overwritten (α Worker : Type) [DecidableEq α] [DecidableEq Worker]
    (who_has : List (List α × List Worker)) (ncores : List (Worker × Nat))
    (d l : List α) (w : Option (List α)) (params : ParamsDict) (sub : Submitted α Worker)
    (hok : trainCoordinator who_has ncores d l w params = Except.ok sub) :
    List.lookup "tree_learner" sub.callerParams = some (PVal.s "data") := by
  rw [trainCoordinator_callerParams who_has ncores d l w params sub hok]
  exact lookup_dictInsert_self params "tree_learner" (PVal.s "data")

/-- Witness for `tree_learner_overwritten`: a caller that asked for
`tree_learner = "feature"` finds `"data"` in its own dict after `train`. -/
theorem tree_learner_overwritten_witness :
    List.lookup "tree_learner"
      (Submitted.mk
        [{ worker := "w1"
           params := [("tree_learner", PVal.s "data"), ("num_threads", PVal.n 4)]
           list_of_parts := [["f1", "l1"]]
           worker_addresses := ["w1"]
           local_listen_port := PVal.n 12400
           listen_time_out := PVal.n 120 : Job String String }]
        [("tree_learner", PVal.s "data")]).callerParams = some (PVal.s "data") :=
  tree_learner_overwritten String String [(["f1", "l1"], ["w1"])] [("w1", 4)]
    ["f1"] ["l1"] none [("tree_learner", PVal.s "feature")]
    (Submitted.mk
      [{ worker := "w1"
         params := [("tree_learner", PVal.s "data"), ("num_threads", PVal.n 4)]
         list_of_parts := [["f1", "l1"]]
         worker_addresses := ["w1"]
         local_listen_port := PVal.n 12400
         listen_time_out := PVal.n 120 : Job String String }]
      [("tree_learner", PVal.s "data")])
    rfl

/-! ## Claim theorems: malformed addresses and network release -/

/-- The only error `parse_host_port` can raise is the address-format
`ValueError` — the specification's `AddressFormatError`. -/
theorem parse_host_port_error (s : String) (e : Err)
    (h : parse_host_port s = Except.error e) : e = Err.addressFormatError := by
  simp only [parse_host_port] at h
  cases hs : pySplit ':' (stripScheme s) with
  | nil => rw [hs] at h; exact (Except.error.inj h).symm
  | cons f rest =>
    cases rest with
    | nil => rw [hs] at h; exact (Except.error.inj h).symm
    | cons g rest2 =>
      cases rest2 with
      | nil =>
        rw [hs] at h
        cases hp : pyInt g with
        | none =>
          simp only [hp] at h
          exact (Except.error.inj h).symm
        | some v =>
          simp only [hp] at h
          cases h
      | cons r rest3 => rw [hs] at h; exact (Except.error.inj h).symm

/-- The only error a `machines` entry can raise is the address-format one
coming out of `parse_host_port`. -/
theorem machinesEntry_error (p : String × Nat) (e : Err)
    (h : machinesEntry p = Except.error e) : e = Err.addressFormatError := by
  unfold machinesEntry at h
  cases hp : parse_host_port p.1 with
  | error e2 =>
    rw [hp] at h
    simp only [Bind.bind, Except.bind, Except.error.injEq] at h
    rw [← h]
    exact parse_host_port_error p.1 e2 hp
  | ok hostport =>
    rw [hp] at h
    simp [Bind.bind, Except.bind] at h

/-- Mapping in the `Except` monad over a list that contains a failing
element fails, and with error `e0` when every possible failure is `e0`. -/
theorem exceptMapM_error {α β : Type} (f : α → Except Err β) (e0 : Err)
    (huniq : ∀ a e, f a = Except.error e → e = e0) :
    ∀ l : List α, (∃ a ∈ l, ∃ e, f a = Except.error e) →
      exceptMapM f l = Except.error e0 := by
  intro l
  induction l with
  | nil => intro h; simp at h
  | cons a rest ih =>
    intro h
    cases hfa : f a with
    | error e =>
      have he : e = e0 := huniq a e hfa
      simp [exceptMapM, hfa, Bind.bind, Except.bind, he]
    | ok b =>
      obtain ⟨x, hx, e, hxe⟩ := h
      rcases List.mem_cons.mp hx with hx1 | hx2
      · rw [hx1] at hxe
        rw [hfa] at hxe
        cases hxe
      · have hrest := ih ⟨x, hx2, e, hxe⟩
        simp [exceptMapM, hfa, hrest, Bind.bind, Except.bind]

/-- Keys of a dict after a write: the old keys plus the written one. -/
theorem mem_keys_dictInsert {α β : Type} [DecidableEq α] (a : α) (v : β) (x : α) :
    ∀ m : List (α × β),
      x ∈ (dictInsert m a v).map Prod.fst ↔ x ∈ m.map Prod.fst ∨ x = a := by
  intro m
  induction m with
  | nil => simp [dictInsert]
  | cons p rest ih =>
    by_cases hp : p.1 = a
    · rw [dictInsert, if_pos hp]
      simp only [List.map_cons, List.mem_cons]
      constructor
      · intro h
        rcases h with h | h
        · exact Or.inr h
        · exact Or.inl (Or.inr h)
      · intro h
        rcases h with (h | h) | h
        · exact Or.inl (hp ▸ h)
        · exact Or.inr h
        · exact Or.inl h
    · rw [dictInsert, if_neg hp]
      simp only [List.map_cons, List.mem_cons, ih]
      tauto

/-- Every input address is a key of the `addr_port_map` dict. -/
theorem mem_keys_addrPortMapFrom (base : Nat) (a : String) :
    ∀ (rest : List String) (i : Nat) (m : List (String × Nat)),
      a ∈ rest ∨ a ∈ m.map Prod.fst →
      a ∈ (addrPortMapFrom base rest i m).map Prod.fst := by
  intro rest
  induction rest with
  | nil =>
    intro i m h
    rcases h with h | h
    · simp at h
    · exact h
  | cons b rs ih =>
    intro i m h
    rw [addrPortMapFrom]
    apply ih (i + 1)
    rcases h with h | h
    · rcases List.mem_cons.mp h with h1 | h2
      · exact Or.inr ((mem_keys_dictInsert b (base + i) a m).mpr (Or.inr h1))
      · exact Or.inl h2
    · exact Or.inr ((mem_keys_dictInsert b (base + i) a m).mpr (Or.inl h))

/-- A list element whose first component is a key appears as a full pair. -/
theorem exists_pair_of_mem_keys {α β : Type} (a : α) :
    ∀ m : List (α × β), a ∈ m.map Prod.fst → ∃ v, (a, v) ∈ m := by
  intro m h
  rcases List.mem_map.mp h with ⟨p, hp, hfst⟩
  refine ⟨p.2, ?_⟩
  rw [← hfst]
  simpa using hp

/-- When any worker address in the list is malformed, `build_network_params`
raises the address-format error: the `machines` comprehension evaluates
`parse_host_port` on every dict key. -/
theorem build_network_params_error_of_malformed (ws : List String) (lw : String)
    (llp lt : Nat) (a : String) (ha : a ∈ ws)
    (hbad : parse_host_port a = Except.error Err.addressFormatError) :
    build_network_params ws lw llp lt = Except.error Err.addressFormatError := by
  have hkey : a ∈ (addrPortMap ws llp).map Prod.fst :=
    mem_keys_addrPortMapFrom llp a ws 0 [] (Or.inl ha)
  obtain ⟨v, hv⟩ := exists_pair_of_mem_keys a (addrPortMap ws llp) hkey
  have hentry : machinesEntry (a, v) = Except.error Err.addressFormatError := by
    unfold machinesEntry
    simp [hbad, Bind.bind, Except.bind]
  have hmap : exceptMapM machinesEntry (addrPortMap ws llp) =
      Except.error Err.addressFormatError :=
    exceptMapM_error machinesEntry Err.addressFormatError machinesEntry_error
      (addrPortMap ws llp) ⟨(a, v), hv, Err.addressFormatError, hentry⟩
  simp only [build_network_params]
  rw [hmap]
  simp [Bind.bind, Except.bind]

/-- Claim C6, amended: a malformed worker address (one whose scheme-stripped
form does not split into exactly `host:port` with an integer port) does
make training fail with the specification's `AddressFormatError`, but the
failure arises inside the dispatched per-worker task — `_fit_local` calls
`build_network_params`, which parses every address — not before dispatch;
the coordinator submits the task without validating addresses (see the
counterexample), and the failing task exits before the LightGBM network is
ever acquired or freed. -/
theorem malformed_address_fails_in_worker (α Model : Type) (params : ParamsDict)
    (trainer : ParamsDict → Except Err Model) (parts : List (List α))
    (ws : List String) (lw : String) (llp lt : Nat) (a : String)
    (ha : a ∈ ws) (hbad : parse_host_port a = Except.error Err.addressFormatError) :
    fitLocal params trainer parts ws lw llp lt =
      { result := Except.error Err.addressFormatError, networkFreeCalls := 0 } := by
  unfold fitLocal
  rw [build_network_params_error_of_malformed ws lw llp lt a ha hbad]

/-- Witness for `malformed_address_fails_in_worker`: the address
`"tcp://badworker"` has no `':'`-separated port, and the worker-side task
carrying it fails with the address-format error without freeing the
network. -/
theorem malformed_address_witness :
    fitLocal [] (fun _ => Except.ok (0 : Nat)) [["f1", "l1"]]
        ["tcp://badworker"] "tcp://badworker" 12400 120 =
      { result := Except.error Err.addressFormatError, networkFreeCalls := 0 } :=
  malformed_address_fails_in_worker String Nat [] (fun _ => Except.ok 0) [["f1", "l1"]]
    ["tcp://badworker"] "tcp://badworker" 12400 120 "tcp://badworker"
    (by decide) rfl

/-- Counterexample to claim C6 as frozen ("raised before any training task
is dispatched"): with the malformed worker address `"tcp://badworker"`, the
coordinator raises nothing — it submits one training task to that worker —
and only that dispatched task, when it runs `_fit_local`, fails with the
address-format error. -/
theorem malformed_address_dispatch_counterexample :
    @trainCoordinator String String _ _
        [(["f1", "l1"], ["tcp://badworker"])] [("tcp://badworker", 2)]
        ["f1"] ["l1"] none [] =
      Except.ok
        { jobs := [{ worker := "tcp://badworker"
                     params := [("tree_learner", PVal.s "data"), ("num_threads", PVal.n 2)]
                     list_of_parts := [["f1", "l1"]]
                     worker_addresses := ["tcp://badworker"]
                     local_listen_port := PVal.n 12400
                     listen_time_out := PVal.n 120 }]
          callerParams := [("tree_learner", PVal.s "data")] } ∧
    fitLocal [] (fun _ => Except.ok (0 : Nat)) [["f1", "l1"]]
        ["tcp://badworker"] "tcp://badworker" 12400 120 =
      { result := Except.error Err.addressFormatError, networkFreeCalls := 0 } := ⟨rfl, rfl⟩

/-- Claim C8: once `_fit_local` reaches its `try` block (the network
parameters built and `list_of_parts[0]` in range), `LGBM_NetworkFree` runs
exactly once on every exit path — whether the local `fit` returns a model
or raises — and the trainer's own outcome (model or error) is what
`_fit_local` propagates. -/
theorem network_free_exactly_once (α Model : Type) (params : ParamsDict)
    (trainer : ParamsDict → Except Err Model) (parts : List (List α))
    (ws : List String) (lw : String) (llp lt : Nat) (np : NetworkParams)
    (hnet : build_network_params ws lw llp lt = Except.ok np) (hne : parts ≠ []) :
    (fitLocal params trainer parts ws lw llp lt).networkFreeCalls = 1 ∧
    (fitLocal params trainer parts ws lw llp lt).result =
      trainer (mergeNetworkParams params np) := by
  unfold fitLocal
  rw [hnet]
  cases parts with
  | nil => exact absurd rfl hne
  | cons p rest => exact ⟨rfl, rfl⟩

/-- Witness for `network_free_exactly_once`, applied at a one-worker
topology: on this run the network is freed exactly once and the trainer's
result is returned. -/
theorem network_free_witness :
    (fitLocal [] (fun _ => Except.ok (7 : Nat)) [["f1", "l1"]] ["a:1"] "a:1" 12400 120).networkFreeCalls = 1 ∧
    (fitLocal [] (fun _ => Except.ok (7 : Nat)) [["f1", "l1"]] ["a:1"] "a:1" 12400 120).result =
      Except.ok 7 :=
  network_free_exactly_once String Nat [] (fun _ => Except.ok 7) [["f1", "l1"]]
    ["a:1"] "a:1" 12400 120
    { machines := "a:12400", local_listen_port := 12400, listen_time_out := 120,
      num_machines := 1 }
    rfl (by decide)

/-! ## Claim theorems: per-partition prediction -/

/-- Claim C9: prediction applies the model to each partition independently
and mirrors the input partitioning — one output partition per input
partition, in order, on both the dataframe and the array path. On a
dataframe partition the non-probabilistic result is a series with exactly
one scalar per input row and the probabilistic result has exactly one
class-score row per input row, of length `n_classes_`, and both carry the
input partition's row index unchanged and in order. On an array block the
row counts agree likewise. -/
theorem prediction_per_partition (Feat Lbl Score : Type)
    (model : LocalModel Feat Lbl Score) (partitions : List (List (Nat × Feat)))
    (blocks : List (List Feat)) (proba : Bool) :
    (predictFrame model partitions proba).length = partitions.length ∧
    (∀ i part, partitions.get? i = some part →
      (predictFrame model partitions proba).get? i =
        some (predictPartFrame model part proba)) ∧
    (∀ part : List (Nat × Feat), ∃ l,
      predictPartFrame model part false = PredOut.series l ∧
      l.length = part.length ∧ l.map Prod.fst = part.map Prod.fst) ∧
    (∀ part : List (Nat × Feat), ∃ l,
      predictPartFrame model part true = PredOut.frame l ∧
      l.length = part.length ∧ l.map Prod.fst = part.map Prod.fst ∧
      ∀ r ∈ l, r.2.length = model.nClasses) ∧
    (predictArray model blocks proba).length = blocks.length ∧
    (∀ block : List Feat,
      (predictPartArray model block false).numRows = block.length ∧
      (predictPartArray model block true).numRows = block.length) ∧
    (∀ block : List Feat, ∀ rows,
      predictPartArray model block true = ArrOut.mat rows →
      ∀ r ∈ rows, r.length = model.nClasses) := by
  refine ⟨?_, ?_, ?_, ?_, ?_, ?_, ?_⟩
  · simp [predictFrame]
  · intro i part h
    rw [List.get?_eq_getElem?] at h ⊢
    simp [predictFrame, h]
  · intro part
    refine ⟨List.zip (part.map Prod.fst) ((part.map Prod.snd).map model.predictRow),
      by simp [predictPartFrame], by simp, ?_⟩
    exact List.map_fst_zip _ _ (by simp)
  · intro part
    refine ⟨List.zip (part.map Prod.fst) ((part.map Prod.snd).map model.predictProbaRow),
      by simp [predictPartFrame], by simp, List.map_fst_zip _ _ (by simp), ?_⟩
    intro r hr
    obtain ⟨ri, rv⟩ := r
    have hrv : rv ∈ (part.map Prod.snd).map model.predictProbaRow :=
      (List.of_mem_zip hr).2
    rcases List.mem_map.mp hrv with ⟨x, _, hx⟩
    rw [← hx]
    exact model.predictProbaRow_length x
  · simp [predictArray]
  · intro block
    constructor
    · simp [predictPartArray, ArrOut.numRows]
    · simp [predictPartArray, ArrOut.numRows]
  · intro block rows h r hr
    have hrows : rows = block.map model.predictProbaRow := by
      simpa [predictPartArray] using h.symm
    subst hrows
    rcases List.mem_map.mp hr with ⟨x, _, hx⟩
    rw [← hx]
    exact model.predictProbaRow_length x
